import Mathlib

/-!
Shallow embedding of the fab build system's Psyclone step
(`source/fab/steps/psyclone.py`) and of the compile scheduler's combo
hashes, together with theorems settling the frozen claims about them.

Paths are modelled as strings, file contents and checksums as naturals,
and the external helpers (`file_checksum`, `string_checksum`, `file_walk`)
as oracle parameters: the checksum of a path/string is an arbitrary
function supplied to each definition, since only the *structure* of the
hash combination is at issue, not the CRC algorithm itself.
-/

namespace Fab

/-- A filesystem path, modelled as its string form. -/
abbrev FPath := String

/-- `AnalysedX90` analysis record (contract from `fab.parse.x90`):
the analysed file's path, its `file_hash`, and the kernel names it
depends on via `invoke()` calls. -/
structure AnalysedX90 where
  fpath : FPath
  file_hash : Nat
  kernel_deps : List String
deriving DecidableEq, Repr

/-- `AnalysedFortran` analysis record, restricted to the field the
Psyclone step reads: `psyclone_kernels`, a dict mapping kernel type
name to the hash of its metadata block (modelled as an association
list, unique keys). -/
structure AnalysedFortranK where
  fpath : FPath
  psyclone_kernels : List (String × Nat)
deriving DecidableEq, Repr

/-- The `MpPayload` dataclass of `fab.steps.psyclone`: data needed by the
child processes to compute prebuild hashes.  Python dicts are modelled as
association lists with first-match lookup. -/
structure MpPayload where
  analysed_x90 : List (FPath × AnalysedX90)
  all_kernel_hashes : List (String × Nat)
  transformation_script_hash : Nat
deriving DecidableEq, Repr

/-!
## `Psyclone._gen_prebuild_hash`

The Python code is

```
kernel_deps_hashes = set-comprehension of all_kernel_hashes[k] for k in kernel_deps
prebuild_hash = sum([analysis_result.file_hash, sum(kernel_deps_hashes),
                     mp_payload.transformation_script_hash,
                     string_checksum(str(self.cli_args))])
```

A Python set comprehension over the hash values keeps each *value* once,
which `List.dedup` models; `sum` is plain unbounded integer addition.
Dictionary indexing raises `KeyError` on a missing key, hence `Option`.
The `string_checksum(str(self.cli_args))` value enters as the oracle
argument `cliArgsHash`.
-/

/-- `Psyclone._gen_prebuild_hash`: the prebuild combo hash for one x90
file.  `none` models a `KeyError` from either dict lookup. -/
def genPrebuildHash (x90File : FPath) (payload : MpPayload) (cliArgsHash : Nat) :
    Option Nat :=
  match payload.analysed_x90.lookup x90File with
  | none => none
  | some analysisResult =>
    match analysisResult.kernel_deps.mapM
        (fun k => payload.all_kernel_hashes.lookup k) with
    | none => none
    | some kernelDepsHashes =>
      some (analysisResult.file_hash + kernelDepsHashes.dedup.sum +
            payload.transformation_script_hash + cliArgsHash)

/-- The combo hash as the spec's words describe it (for comparison with
`genPrebuildHash`): `combine(file_hash, Σ_{k ∈ kernel_deps} kernel_hashes[k],
transformation_script_hash, string_hash(cli_args))` with
`combine = integer sum mod 2^32`, each dependency contributing its hash. -/
def specPrebuildHash (x90File : FPath) (payload : MpPayload) (cliArgsHash : Nat) :
    Option Nat :=
  match payload.analysed_x90.lookup x90File with
  | none => none
  | some analysisResult =>
    match analysisResult.kernel_deps.mapM
        (fun k => payload.all_kernel_hashes.lookup k) with
    | none => none
    | some kernelDepsHashes =>
      some ((analysisResult.file_hash + kernelDepsHashes.sum +
            payload.transformation_script_hash + cliArgsHash) % 2 ^ 32)

/-!
## `Psyclone._get_prebuild_paths`

```
prebuilt_alg = prebuild_folder / f-string of stem, '.', prebuild_hash, suffix
prebuilt_gen = prebuild_folder / f-string of stem, '.', prebuild_hash, suffix
```

Interpolating a Python `int` into an f-string renders it with `str()`,
i.e. as a decimal numeral, which `Nat.repr` models.  `Path.stem` and
`Path.suffix` are taken as given strings (the suffix carries its dot,
as in Python). -/

/-- One prebuild filename as built by `Psyclone._get_prebuild_paths`. -/
def prebuiltFileName (stem : String) (prebuildHash : Nat) (suffix : String) :
    String :=
  stem ++ "." ++ Nat.repr prebuildHash ++ suffix

/-- `Psyclone._get_prebuild_paths`: the pair of prebuild paths for the
modified algorithm file and the generated psy file. -/
def getPrebuildPaths (prebuildFolder : String)
    (algStem algSuffix genStem genSuffix : String) (prebuildHash : Nat) :
    String × String :=
  (prebuildFolder ++ "/" ++ prebuiltFileName algStem prebuildHash algSuffix,
   prebuildFolder ++ "/" ++ prebuiltFileName genStem prebuildHash genSuffix)

/-- Lowercase hexadecimal rendering of a natural number (for comparison
with the decimal rendering the code uses).  `Nat.toDigits 16` produces
lowercase hex digit characters. -/
def natToHexLower (n : Nat) : String :=
  String.mk (Nat.toDigits 16 n)

/-!
## Kernel file discovery in `Psyclone._analyse_kernels`

```
file_lists = [file_walk(root, ignore_folders=[prebuild_folder]) for root in kernel_roots]
all_kernel_files = set(*chain(file_lists))
kernel_files = suffix_filter(all_kernel_files, ['.f90'])
```

The walk itself is external; its per-root results enter as the given
`fileLists`.  `chain(file_lists)` iterates over the per-root lists
themselves, and `set(*...)` star-unpacks them as positional arguments to
`set()`: zero arguments is the empty set, one argument is the set of
that list's elements, and two or more arguments raise
`TypeError: set expected at most 1 argument` — modelled as `none`.
-/

/-- Python `str.endswith`: the suffix test on path strings. -/
def pyEndsWith (s suffix : String) : Bool :=
  suffix.data.isSuffixOf s.data

/-- `set(*chain(file_lists))` with Python call semantics. -/
def pySetStarChain (fileLists : List (List FPath)) : Option (List FPath) :=
  match fileLists with
  | [] => some []
  | [l] => some l.dedup
  | _ => none

/-- Kernel candidate file discovery in `Psyclone._analyse_kernels`:
star-unpacked set construction followed by `suffix_filter(..., ['.f90'])`. -/
def kernelFileDiscovery (fileLists : List (List FPath)) : Option (List FPath) :=
  (pySetStarChain fileLists).map (fun fs => fs.filter (fun p => pyEndsWith p ".f90"))

/-- Kernel candidate discovery as the spec's words describe it (for
comparison): the set of the union over all roots, filtered to `.f90`
— `set(chain.from_iterable(file_lists))` semantics. -/
def specKernelFileDiscovery (fileLists : List (List FPath)) : List FPath :=
  fileLists.flatten.dedup.filter (fun p => pyEndsWith p ".f90")

/-!
## Gathering kernel hashes in `Psyclone._analyse_kernels`

```
all_kernel_hashes = {}
for af in analysed_fortran:
    assert set(af.psyclone_kernels).isdisjoint(all_kernel_hashes), "duplicate kernel name(s): ..."
    all_kernel_hashes.update(af.psyclone_kernels)
```

A failing `assert` raises `AssertionError`, modelled as `Except.error`.
Under the disjointness guard, `dict.update` appends fresh keys, so the
accumulator is an association list extended by concatenation.
-/

/-- Does some key of `kernels` already occur in the accumulated dict?
(Python: `not set(af.psyclone_kernels).isdisjoint(all_kernel_hashes)`.) -/
def kernelsClash (acc kernels : List (String × Nat)) : Bool :=
  kernels.any (fun kv => acc.any (fun kv2 => kv2.1 = kv.1))

/-- The accumulation loop of `Psyclone._analyse_kernels`, gathering every
file's `psyclone_kernels` into one dict, failing on a duplicate name. -/
def gatherKernelHashes (afs : List AnalysedFortranK) (acc : List (String × Nat)) :
    Except String (List (String × Nat)) :=
  match afs with
  | [] => .ok acc
  | af :: rest =>
    if kernelsClash acc af.psyclone_kernels then
      .error ("duplicate kernel name(s) in " ++ af.fpath)
    else
      gatherKernelHashes rest (acc ++ af.psyclone_kernels)

/-- Two analysis records define no kernel name in common. -/
def kernelDisjoint (a b : AnalysedFortranK) : Prop :=
  ∀ k, (k ∈ a.psyclone_kernels.map Prod.fst) → k ∉ b.psyclone_kernels.map Prod.fst

/-!
## Per-input analysis results and error checking

`run_mp` hands back, per input, either an analysis record or the
exception the worker caught (`by_type` separates them).  `check_for_errors`
is in `fab/steps/__init__.py`, which is not part of this source tree.
-/

/-- A per-input worker result: either the produced value or the caught
exception's message. -/
inductive PyRes (α : Type) where
  | exc (msg : String)
  | val (a : α)
deriving DecidableEq, Repr

/-- The error messages among a list of worker results
(`by_type(results, Exception)`). -/
def errorMsgs {α : Type} (results : List (PyRes α)) : List String :=
  results.filterMap (fun r => match r with | .exc m => some m | .val _ => none)

/-- The successful values among a list of worker results
(`by_type(results, T)`). -/
def successes {α : Type} (results : List (PyRes α)) : List α :=
  results.filterMap (fun r => match r with | .exc _ => none | .val a => some a)

/-- Is a worker result a successful value? -/
def isValR {α : Type} : PyRes α → Bool
  | .exc _ => false
  | .val _ => true

/-- Modelled from the spec: `check_for_errors` (defined in
`fab/steps/__init__.py`, absent from this source tree) — per-input errors
are "collected, reported together, fatal to the step", i.e. it raises a
single summary exception iff any result is an error. -/
def check_for_errors {α : Type} (results : List (PyRes α)) :
    Except (List String) Unit :=
  if errorMsgs results = [] then .ok () else .error (errorMsgs results)

/-!
## `Psyclone._analyse_x90s`

After analysing the parsable rewrites, the results are re-keyed and
re-hashed:

```
analysed_x90 = {result.fpath.with_suffix('.x90'): result for result in analysed_x90}
for p, r in analysed_x90.items():
    analysed_x90[p]._file_hash = file_checksum(p).file_hash
```
-/

/-- `Path.with_suffix(new)`: drop the existing suffix of the final path
component (the part from the last dot onward, when a dot occurs after the
last separator) and append `new`. -/
def withSuffix (p : String) (newSuffix : String) : String :=
  let name := p.toList.reverse.takeWhile (fun c => c ≠ '/')
  if name.contains '.' then
    String.mk ((p.toList.reverse.dropWhile (fun c => c ≠ '.')).tail).reverse ++ newSuffix
  else
    p ++ newSuffix

/-- The re-keying and re-hashing at the end of `Psyclone._analyse_x90s`:
each analysis record is keyed under the original `.x90` path and its
`file_hash` overwritten with the checksum of that original file (the
`fileChecksum` oracle stands for `file_checksum(p).file_hash`). -/
def buildAnalysedX90Map (analyses : List AnalysedX90)
    (fileChecksum : FPath → Nat) : List (FPath × AnalysedX90) :=
  (analyses.map (fun r => (withSuffix r.fpath ".x90", r))).map
    (fun pr => (pr.1, { pr.2 with file_hash := fileChecksum pr.1 }))

/-- The error-handling and result shape of `Psyclone._analyse_x90s`:
analysis failures abort the phase via `check_for_errors` before the
mapping is built. -/
def analyseX90Phase (results : List (PyRes AnalysedX90))
    (fileChecksum : FPath → Nat) :
    Except (List String) (List (FPath × AnalysedX90)) := do
  check_for_errors results
  .ok (buildAnalysedX90Map (successes results) fileChecksum)

/-- The error-handling and result shape of `Psyclone._analyse_kernels`:
analysis failures are collected and logged (first component) but do not
abort the phase, which proceeds to gather the successful analyses'
kernel hashes. -/
def analyseKernelsPhase (results : List (PyRes AnalysedFortranK)) :
    List String × Except String (List (String × Nat)) :=
  (errorMsgs results, gatherKernelHashes (successes results) [])

/-!
## `Psyclone.do_one_file`

The filesystem is modelled as the list of currently existing paths;
`shutil.copy2(src, dst)` makes `dst` exist.  Whether the external
psyclone tool fails, and whether it writes the optional `_psy` file,
are oracle inputs.  The function returns the output files, the prebuild
paths handed back for registration, and the final filesystem.
-/

/-- `shutil.copy2`-style effect on the modelled filesystem: afterwards the
destination exists. -/
def fsAdd (fs : List FPath) (p : FPath) : List FPath :=
  if p ∈ fs then fs else p :: fs

/-- Outcome oracle for one external psyclone invocation. -/
structure PsycloneOutcome where
  fails : Bool
  producesPsy : Bool
deriving DecidableEq, Repr

/-- `Psyclone.run_psyclone`: on success the tool writes `modified_alg`
and, when it chooses to, `generated`. -/
def runPsyclone (fs : List FPath) (generated modifiedAlg : FPath)
    (out : PsycloneOutcome) : Except String (List FPath) :=
  if out.fails then .error "psyclone returned non-zero"
  else .ok (fsAdd (if out.producesPsy then fsAdd fs generated else fs) modifiedAlg)

/-- `Psyclone.do_one_file` for one x90 file with stem `stem`:
`modified_alg = <build_output>/<stem>.f90`, `generated =
<build_output>/<stem>_psy.f90`, prebuild paths from
`_get_prebuild_paths`.  Returns `(output_files, prebuild_result, fs)`. -/
def doOneFile (fs : List FPath) (stem : String)
    (buildOutput prebuildFolder : String) (prebuildHash : Nat)
    (out : PsycloneOutcome) :
    Except String (List FPath × List FPath × List FPath) :=
  let modifiedAlg := buildOutput ++ "/" ++ stem ++ ".f90"
  let generated := buildOutput ++ "/" ++ stem ++ "_psy.f90"
  let pb := getPrebuildPaths prebuildFolder stem ".f90" (stem ++ "_psy") ".f90"
      prebuildHash
  let prebuiltAlg := pb.1
  let prebuiltGen := pb.2
  let afterRun : Except String (List FPath) :=
    if prebuiltAlg ∈ fs then
      -- restore branch: copy prebuilds out of the store
      let fs1 := fsAdd fs modifiedAlg
      .ok (if prebuiltGen ∈ fs1 then fsAdd fs1 generated else fs1)
    else
      -- build branch: run the tool, then copy results into the store
      match runPsyclone fs generated modifiedAlg out with
      | .error e => .error e
      | .ok fs1 =>
        let fs2 := fsAdd fs1 prebuiltAlg
        .ok (if generated ∈ fs2 then fsAdd fs2 prebuiltGen else fs2)
  match afterRun with
  | .error e => .error e
  | .ok fs2 =>
    let result := if generated ∈ fs2 then [modifiedAlg, generated] else [modifiedAlg]
    .ok (result, [prebuiltAlg, prebuiltGen], fs2)

/-- `config.add_current_prebuilds`: the step registers every returned
prebuild path into the `CURRENT_PREBUILDS` set. -/
def addCurrentPrebuilds (current : List FPath) (prebuilds : List FPath) :
    List FPath :=
  current ++ prebuilds.filter (fun p => p ∉ current)

/-!
## `make_parsable_x90`

The text transformation: drop every line whose first non-whitespace
character is `!`, then substitute every occurrence of the regex

```
call[\s&]+invoke[\s&]*\([\s&]*name[\s&]*=[\s&]*('[^']*'|"[^"]*")[\s&]*,[\s&]*
```

by `call invoke(` (Python `re.sub`: leftmost matches, scanning resumes
after each replacement).  In this pattern every greedy piece (`[\s&]*`,
`[\s&]+`, `[^']*`, `[^"]*`) is followed by a literal character outside
its class, so greedy matching never backtracks and the regex is
equivalent to the deterministic maximal-munch matcher below.  `\s` is
modelled over its ASCII range, sufficient for Fortran source. -/

/-- Python `\s` (ASCII range): space, tab, newline, carriage return,
vertical tab, form feed. -/
def isPyWs (c : Char) : Bool :=
  c = ' ' || c = '\t' || c = '\n' || c = '\r' ||
  c = Char.ofNat 11 || c = Char.ofNat 12

/-- The character class `[\s&]` of the `WHITE` / `OPT_WHITE` pattern
fragments. -/
def isWsAmp (c : Char) : Bool :=
  isPyWs c || c = '&'

/-- The single-quote character. -/
def sqChar : Char := Char.ofNat 39

/-- The double-quote character. -/
def dqChar : Char := Char.ofNat 34

/-- Match a literal character sequence, returning the remainder. -/
def matchLit : List Char → List Char → Option (List Char)
  | [], cs => some cs
  | _ :: _, [] => none
  | l :: ls, c :: cs => if c = l then matchLit ls cs else none

/-- Greedy `p*`: consume the maximal run satisfying `p`. -/
def matchStar (p : Char → Bool) (cs : List Char) : List Char :=
  cs.dropWhile p

/-- Greedy `p+`: at least one character satisfying `p`, then the rest of
the maximal run. -/
def matchPlus (p : Char → Bool) : List Char → Option (List Char)
  | [] => none
  | c :: cs => if p c then some (matchStar p cs) else none

/-- Match a quoted string `q[^q]*q` for quote character `q`. -/
def matchQuoted (q : Char) : List Char → Option (List Char)
  | [] => none
  | c :: cs =>
    if c = q then
      match cs.dropWhile (fun d => d ≠ q) with
      | [] => none
      | _ :: rest => some rest
    else none

/-- The `STRING` fragment: a single- or double-quoted string. -/
def matchQString (cs : List Char) : Option (List Char) :=
  match matchQuoted sqChar cs with
  | some r => some r
  | none => matchQuoted dqChar cs

/-- The full `NAMED_INVOKE` pattern: `call` `[\s&]+` `invoke` `[\s&]*`
`(` `[\s&]*` `name` `[\s&]*` `=` `[\s&]*` STRING `[\s&]*` `,` `[\s&]*`.
Returns the remainder of the input after the matched span. -/
def matchNamedInvoke (cs : List Char) : Option (List Char) := do
  let r1 ← matchLit "call".data cs
  let r2 ← matchPlus isWsAmp r1
  let r3 ← matchLit "invoke".data r2
  let r4 ← matchLit "(".data (matchStar isWsAmp r3)
  let r5 ← matchLit "name".data (matchStar isWsAmp r4)
  let r6 ← matchLit "=".data (matchStar isWsAmp r5)
  let r7 ← matchQString (matchStar isWsAmp r6)
  let r8 ← matchLit ",".data (matchStar isWsAmp r7)
  some (matchStar isWsAmp r8)

/-- `re.sub` of `NAMED_INVOKE` by `call invoke(`: try the pattern at each
position from the left; on a match, emit the replacement and resume after
the matched span.  The fuel argument (instantiated with the input length)
only makes the recursion structural; a successful match always consumes at
least one character, so the fuel never runs out. -/
def subNamedInvokeAux : Nat → List Char → List Char
  | 0, _ => []
  | _ + 1, [] => []
  | fuel + 1, c :: rest =>
    match matchNamedInvoke (c :: rest) with
    | some rem => "call invoke(".data ++ subNamedInvokeAux fuel rem
    | none => c :: subNamedInvokeAux fuel rest

/-- `re.sub(NAMED_INVOKE, 'call invoke(', src)`. -/
def subNamedInvoke (cs : List Char) : List Char :=
  subNamedInvokeAux cs.length cs

/-- Split a text into its lines, each keeping its terminating newline
(the final line may lack one), as Python `readlines` does. -/
def splitLinesKeep : List Char → List (List Char)
  | [] => []
  | c :: rest =>
    if c = '\n' then [c] :: splitLinesKeep rest
    else
      match splitLinesKeep rest with
      | [] => [[c]]
      | l :: ls => (c :: l) :: ls

/-- `line.lstrip().startswith('!')`. -/
def isCommentLine (line : List Char) : Bool :=
  match line.dropWhile isPyWs with
  | [] => false
  | c :: _ => c = '!'

/-- The comment-stripping stage of `make_parsable_x90`: keep only the
lines that are not comment lines. -/
def stripCommentLines (cs : List Char) : List Char :=
  ((splitLinesKeep cs).filter (fun l => !isCommentLine l)).flatten

/-- The text transformation of `make_parsable_x90`: strip comment lines,
then rewrite every named invoke. -/
def makeParsableText (s : String) : String :=
  String.mk (subNamedInvoke (stripCommentLines s.data))

/-!
## Compile scheduler combo hashes

`fab/steps/compile_fortran.py` is not part of this source tree (only its
unit tests are), so `process_file`'s two combo hashes are modelled from
the spec.
-/

/-- Modelled from the spec: the `AnalysedFortran` fields that
`process_file`'s combo hashes read (`fab/steps/compile_fortran.py` is
missing from this source tree) — the source content hash and the names
of the modules the file consumes. -/
structure AnalysedFortranC where
  file_hash : Nat
  module_deps : List String
deriving DecidableEq, Repr

/-- Modelled from the spec: `combine(hashes…) → u32`, "defined as integer
sum mod 2³²". -/
def combine (hs : List Nat) : Nat :=
  hs.sum % 2 ^ 32

/-- Modelled from the spec: `mods_combo_hash = combine(f.file_hash,
compiler_name_hash, compiler_version_hash)`, governing the module
interface files this file defines. -/
def modsComboHash (f : AnalysedFortranC) (compilerNameHash compilerVersionHash : Nat) :
    Nat :=
  combine [f.file_hash, compilerNameHash, compilerVersionHash]

/-- Modelled from the spec: `obj_combo_hash = combine(mods_combo_hash,
flags_hash, Σ_{m ∈ f.module_deps} _mod_hashes[m])`, governing the object
file.  `modHashes` is the `_mod_hashes` mapping. -/
def objComboHash (f : AnalysedFortranC) (compilerNameHash compilerVersionHash : Nat)
    (flagsHash : Nat) (modHashes : String → Nat) : Nat :=
  combine [modsComboHash f compilerNameHash compilerVersionHash, flagsHash,
    (f.module_deps.map modHashes).sum]

/-- Modelled from the spec: the pair of combo hashes `process_file`
computes for one analysed file, `(mods_combo_hash, obj_combo_hash)`. -/
def processFileHashes (f : AnalysedFortranC)
    (compilerNameHash compilerVersionHash flagsHash : Nat)
    (modHashes : String → Nat) : Nat × Nat :=
  (modsComboHash f compilerNameHash compilerVersionHash,
   objComboHash f compilerNameHash compilerVersionHash flagsHash modHashes)

/-- Is an `Except` value a success? -/
def isOkE {ε α : Type} : Except ε α → Bool
  | .ok _ => true
  | .error _ => false

/-- Well-formed line lists as produced by `splitLinesKeep`: every line is
nonempty, a newline occurs only as a line's final character, and only the
final line may lack one. -/
inductive Lines : List (List Char) → Prop
  | nil : Lines []
  | last (l : List Char) (hne : l ≠ []) (hnl : '\n' ∉ l) : Lines [l]
  | cons (ys : List Char) (ls : List (List Char)) (hnl : '\n' ∉ ys)
      (h : Lines ls) : Lines ((ys ++ ['\n']) :: ls)

/-!
## Helper lemmas
-/

/-- A newline-free nonempty text is a single line. -/
theorem splitLinesKeep_nl_free (l : List Char) (hne : l ≠ []) (hnl : '\n' ∉ l) :
    splitLinesKeep l = [l] := by
  induction l with
  | nil => exact absurd rfl hne
  | cons c rest ih =>
    have hc : c ≠ '\n' := fun h => hnl (h ▸ List.mem_cons_self c rest)
    have hrest : '\n' ∉ rest := fun h => hnl (List.mem_cons_of_mem c h)
    cases rest with
    | nil => simp [splitLinesKeep, hc]
    | cons d tail =>
      rw [splitLinesKeep, if_neg hc, ih (by simp) hrest]

/-- Splitting a newline-terminated line off the front of a text. -/
theorem splitLinesKeep_line_append (ys rest : List Char) (hnl : '\n' ∉ ys) :
    splitLinesKeep (ys ++ '\n' :: rest) = (ys ++ ['\n']) :: splitLinesKeep rest := by
  induction ys with
  | nil => simp [splitLinesKeep]
  | cons c ys ih =>
    have hc : c ≠ '\n' := fun h => hnl (h ▸ List.mem_cons_self c ys)
    have hys : '\n' ∉ ys := fun h => hnl (List.mem_cons_of_mem c h)
    rw [List.cons_append, splitLinesKeep, if_neg hc, ih hys]
    rfl

/-- Re-splitting the concatenation of well-formed lines yields the lines
back. -/
theorem splitLinesKeep_flatten (ls : List (List Char)) (h : Lines ls) :
    splitLinesKeep ls.flatten = ls := by
  induction h with
  | nil => rfl
  | last l hne hnl => simpa using splitLinesKeep_nl_free l hne hnl
  | cons ys tail hnl _ ih =>
    have : (ys ++ ['\n']) :: tail = (ys ++ ['\n']) :: tail := rfl
    calc splitLinesKeep ((ys ++ ['\n']) :: tail).flatten
        = splitLinesKeep (ys ++ '\n' :: tail.flatten) := by simp
      _ = (ys ++ ['\n']) :: splitLinesKeep tail.flatten :=
          splitLinesKeep_line_append ys tail.flatten hnl
      _ = (ys ++ ['\n']) :: tail := by rw [ih]

/-- Filtering preserves well-formedness of a line list. -/
theorem lines_filter (p : List Char → Bool) (ls : List (List Char)) (h : Lines ls) :
    Lines (ls.filter p) := by
  induction h with
  | nil => exact Lines.nil
  | last l hne hnl =>
    by_cases hp : p l
    · simpa [List.filter, hp] using Lines.last l hne hnl
    · simp only [List.filter_cons, List.filter_nil]
      rw [if_neg hp]
      exact Lines.nil
  | cons ys tail hnl htail ih =>
    by_cases hp : p (ys ++ ['\n'])
    · simpa [List.filter_cons, hp] using Lines.cons ys (tail.filter p) hnl ih
    · simp only [List.filter_cons]
      rw [if_neg hp]
      exact ih

/-- `splitLinesKeep` produces well-formed line lists. -/
theorem lines_splitLinesKeep (cs : List Char) : Lines (splitLinesKeep cs) := by
  induction cs with
  | nil => exact Lines.nil
  | cons c rest ih =>
    by_cases hc : c = '\n'
    · subst hc
      simpa [splitLinesKeep] using Lines.cons [] (splitLinesKeep rest) (by simp) ih
    · rw [splitLinesKeep, if_neg hc]
      cases hsplit : splitLinesKeep rest with
      | nil => exact Lines.last [c] (by simp) (by simpa using Ne.symm hc)
      | cons l ls =>
        rw [hsplit] at ih
        cases ih with
        | last l hne hnl =>
          refine Lines.last (c :: l) (by simp) ?_
          simp only [List.mem_cons, not_or]
          exact ⟨Ne.symm hc, hnl⟩
        | cons ys ls2 hys htail =>
          have hcys : '\n' ∉ c :: ys := by
            simp only [List.mem_cons, not_or]
            exact ⟨Ne.symm hc, hys⟩
          exact Lines.cons (c :: ys) ls hcys htail

/-- Discarding the error results leaves the successful values unchanged. -/
theorem successes_filter_vals {α : Type} (rs : List (PyRes α)) :
    successes (rs.filter isValR) = successes rs := by
  induction rs with
  | nil => rfl
  | cons r rest ih =>
    cases r with
    | exc m => simpa [successes, isValR, List.filter] using ih
    | val a => simpa [successes, isValR, List.filter] using ih

/-- Bumping the hash of a module that occurs exactly once among the
dependencies bumps the dependency hash sum by exactly one. -/
theorem sum_map_update_add_one (l : List String) (g : String → Nat) (m : String)
    (h : l.count m = 1) :
    (l.map (Function.update g m (g m + 1))).sum = (l.map g).sum + 1 := by
  induction l with
  | nil => simp at h
  | cons a rest ih =>
    by_cases ha : a = m
    · subst ha
      have hrest : rest.count a = 0 := by
        simpa [List.count_cons] using h
      have hnotmem : a ∉ rest := by
        simpa using List.count_eq_zero.mp hrest
      have hmap : rest.map (Function.update g a (g a + 1)) = rest.map g := by
        refine List.map_congr_left ?_
        intro x hx
        refine Function.update_noteq ?_ _ _
        intro hxa
        exact hnotmem (hxa ▸ hx)
      simp [hmap, Function.update_same]
      omega
    · have hcount : rest.count m = 1 := by
        simpa [List.count_cons, ha] using h
      simp only [List.map_cons, List.sum_cons, ih hcount,
        Function.update_noteq ha]
      omega

/-- Adding one to a value whose residue is not the top residue adds one to
the residue. -/
theorem mod_add_one_of_ne_top (T n : Nat) (hn : 1 < n) (h : T % n ≠ n - 1) :
    (T + 1) % n = T % n + 1 := by
  have h1 : T % n < n := Nat.mod_lt _ (by omega)
  have h2 : T % n + 1 < n := by omega
  calc (T + 1) % n = (T % n + 1 % n) % n := by rw [Nat.add_mod]
    _ = (T % n + 1) % n := by rw [Nat.mod_eq_of_lt hn]
    _ = T % n + 1 := Nat.mod_eq_of_lt h2

/-- Adding a fixed quantity preserves distinctness of residues. -/
theorem add_mod_ne (X a b n : Nat) (h : a % n ≠ b % n) :
    (X + a) % n ≠ (X + b) % n := by
  intro hc
  exact h (Nat.ModEq.add_left_cancel' X hc)

/-- `kernelsClash` is false exactly when no key is shared. -/
theorem kernelsClash_eq_false_iff (acc ks : List (String × Nat)) :
    kernelsClash acc ks = false ↔ ∀ kv ∈ ks, ∀ kv2 ∈ acc, kv2.1 ≠ kv.1 := by
  unfold kernelsClash
  rw [List.any_eq_false]
  constructor
  · intro h kv hkv kv2 hkv2 heq
    refine h kv hkv ?_
    rw [List.any_eq_true]
    exact ⟨kv2, hkv2, by simp [heq]⟩
  · intro h kv hkv
    rw [Bool.not_eq_true, List.any_eq_false]
    intro kv2 hkv2
    simp only [Bool.not_eq_true, decide_eq_false_iff_not]
    exact h kv hkv kv2 hkv2

/-- `kernelsClash` is true exactly when some key is shared. -/
theorem kernelsClash_eq_true_iff (acc ks : List (String × Nat)) :
    kernelsClash acc ks = true ↔ ∃ kv ∈ ks, ∃ kv2 ∈ acc, kv2.1 = kv.1 := by
  simp [kernelsClash, List.any_eq_true]

/-- The gathering loop succeeds on pairwise-disjoint inputs whose kernels
are also disjoint from the accumulator, producing the concatenation. -/
theorem gather_ok_of_disjoint (afs : List AnalysedFortranK) :
    ∀ acc : List (String × Nat), List.Pairwise kernelDisjoint afs →
    (∀ af ∈ afs, kernelsClash acc af.psyclone_kernels = false) →
    gatherKernelHashes afs acc =
      .ok (acc ++ (afs.map (fun af => af.psyclone_kernels)).flatten) := by
  induction afs with
  | nil => intro acc _ _; simp [gatherKernelHashes]
  | cons af rest ih =>
    intro acc hpw hacc
    have hclash : kernelsClash acc af.psyclone_kernels = false :=
      hacc af (List.mem_cons_self af rest)
    rw [gatherKernelHashes, hclash]
    simp only [Bool.false_eq_true, if_false]
    have hpw' := (List.pairwise_cons.mp hpw)
    have hacc' : ∀ b ∈ rest, kernelsClash (acc ++ af.psyclone_kernels)
        b.psyclone_kernels = false := by
      intro b hb
      have h1 := (kernelsClash_eq_false_iff acc b.psyclone_kernels).mp
        (hacc b (List.mem_cons_of_mem af hb))
      have h2 : kernelDisjoint af b := hpw'.1 b hb
      refine (kernelsClash_eq_false_iff _ _).mpr ?_
      intro kv hkv kv2 hkv2
      rcases List.mem_append.mp hkv2 with hin | hin
      · exact h1 kv hkv kv2 hin
      · intro heq
        have hk2 : kv2.1 ∈ af.psyclone_kernels.map Prod.fst :=
          List.mem_map_of_mem Prod.fst hin
        exact h2 kv2.1 hk2 (heq ▸ List.mem_map_of_mem Prod.fst hkv)
    rw [ih (acc ++ af.psyclone_kernels) hpw'.2 hacc']
    simp

/-- The gathering loop fails whenever some input's kernels clash with the
accumulator. -/
theorem gather_error_of_clash (afs : List AnalysedFortranK) :
    ∀ acc : List (String × Nat),
    (∃ af ∈ afs, kernelsClash acc af.psyclone_kernels = true) →
    isOkE (gatherKernelHashes afs acc) = false := by
  induction afs with
  | nil => intro acc h; simp at h
  | cons af rest ih =>
    intro acc h
    by_cases hclash : kernelsClash acc af.psyclone_kernels = true
    · rw [gatherKernelHashes, hclash]
      simp [isOkE]
    · have hf : kernelsClash acc af.psyclone_kernels = false :=
        Bool.eq_false_iff.mpr hclash
      rw [gatherKernelHashes, hf]
      simp only [Bool.false_eq_true, if_false]
      obtain ⟨b, hb, hbclash⟩ := h
      rcases List.mem_cons.mp hb with rfl | hbrest
      · exact absurd hbclash hclash
      · refine ih (acc ++ af.psyclone_kernels) ⟨b, hbrest, ?_⟩
        obtain ⟨kv, hkv, kv2, hkv2, heq⟩ :=
          (kernelsClash_eq_true_iff acc b.psyclone_kernels).mp hbclash
        exact (kernelsClash_eq_true_iff _ _).mpr
          ⟨kv, hkv, kv2, List.mem_append.mpr (Or.inl hkv2), heq⟩

/-- The gathering loop fails on inputs that are not pairwise disjoint. -/
theorem gather_error_of_not_pairwise (afs : List AnalysedFortranK) :
    ∀ acc : List (String × Nat), ¬ List.Pairwise kernelDisjoint afs →
    isOkE (gatherKernelHashes afs acc) = false := by
  induction afs with
  | nil => intro acc h; exact absurd List.Pairwise.nil h
  | cons af rest ih =>
    intro acc h
    by_cases hclash : kernelsClash acc af.psyclone_kernels = true
    · rw [gatherKernelHashes, hclash]
      simp [isOkE]
    · have hf : kernelsClash acc af.psyclone_kernels = false :=
        Bool.eq_false_iff.mpr hclash
      rw [gatherKernelHashes, hf]
      simp only [Bool.false_eq_true, if_false]
      by_cases hpw : List.Pairwise kernelDisjoint rest
      · have hnd : ¬ ∀ b ∈ rest, kernelDisjoint af b := by
          intro hall
          exact h (List.pairwise_cons.mpr ⟨hall, hpw⟩)
        push_neg at hnd
        obtain ⟨b, hb, hbad⟩ := hnd
        simp only [kernelDisjoint, not_forall] at hbad
        obtain ⟨k, hk1, hk2⟩ := hbad
        rw [not_not] at hk2
        refine gather_error_of_clash rest (acc ++ af.psyclone_kernels)
          ⟨b, hb, ?_⟩
        obtain ⟨kv, hkv, hkveq⟩ := List.mem_map.mp hk2
        obtain ⟨kv2, hkv2, hkv2eq⟩ := List.mem_map.mp hk1
        refine (kernelsClash_eq_true_iff _ _).mpr
          ⟨kv, hkv, kv2, List.mem_append.mpr (Or.inr hkv2), ?_⟩
        rw [hkv2eq, hkveq]
      · exact ih (acc ++ af.psyclone_kernels) hpw

/-- Base-10 digit extraction only pushes decimal digit characters. -/
theorem toDigitsCore_all_digit (fuel : Nat) : ∀ (n : Nat) (ds : List Char),
    ds.all Char.isDigit = true →
    (Nat.toDigitsCore 10 fuel n ds).all Char.isDigit = true := by
  induction fuel with
  | zero => intro n ds hds; simpa [Nat.toDigitsCore] using hds
  | succ fuel ih =>
    intro n ds hds
    have h10 : n % 10 < 10 := Nat.mod_lt _ (by norm_num)
    have hd : (Nat.digitChar (n % 10)).isDigit = true := by
      set k := n % 10 with hk
      interval_cases k <;> decide
    rw [Nat.toDigitsCore]
    by_cases h0 : n / 10 = 0
    · simp only [h0, if_true]
      simp [List.all_cons, hd, hds]
    · simp only [h0, if_false]
      exact ih _ _ (by simp [List.all_cons, hd, hds])

/-- The decimal rendering of a natural number consists of decimal digit
characters only (so in particular of no hex letters). -/
theorem repr_all_digit (n : Nat) : (Nat.repr n).data.all Char.isDigit = true := by
  show ((Nat.toDigits 10 n).asString).data.all Char.isDigit = true
  rw [Nat.toDigits]
  exact toDigitsCore_all_digit _ _ _ rfl

/-!
## The claims
-/

/-- C1 — counterexample.  The claim states that the prebuild combo hash is
`combine(file_hash, Σ_{k ∈ kernel_deps} kernel_hashes[k],
transformation_script_hash, string_hash(cli_args))` with `combine` the
integer sum mod 2^32.  At this input (file hash `2^32 - 1`, two kernel
dependencies whose metadata hashes are both `5`), the code produces the
un-reduced sum `4294967300` over the *deduplicated set* of dependency
hashes, while the claimed formula yields `9`. -/
theorem c1_prebuild_hash_counterexample :
    genPrebuildHash "a.x90"
      ⟨[("a.x90", ⟨"a.parsable_x90", 4294967295, ["k1", "k2"]⟩)],
       [("k1", 5), ("k2", 5)], 0⟩ 0 = some 4294967300 ∧
    specPrebuildHash "a.x90"
      ⟨[("a.x90", ⟨"a.parsable_x90", 4294967295, ["k1", "k2"]⟩)],
       [("k1", 5), ("k2", 5)], 0⟩ 0 = some 9 ∧
    genPrebuildHash "a.x90"
      ⟨[("a.x90", ⟨"a.parsable_x90", 4294967295, ["k1", "k2"]⟩)],
       [("k1", 5), ("k2", 5)], 0⟩ 0 ≠
    specPrebuildHash "a.x90"
      ⟨[("a.x90", ⟨"a.parsable_x90", 4294967295, ["k1", "k2"]⟩)],
       [("k1", 5), ("k2", 5)], 0⟩ 0 := by
  refine ⟨by decide, by decide, by decide⟩

/-- C1 — amended.  For every x90 file whose analysis record and kernel
dependencies resolve in the payload, the prebuild combo hash equals the
plain (un-reduced) integer sum of: the analysed file's `file_hash`, the
sum of the *distinct* kernel-dependency hash values (a set of hashes, so
equal hashes contribute once), the transformation-script hash, and the
string hash of the cli args. -/
theorem c1_prebuild_hash_amended (x90File : FPath) (payload : MpPayload)
    (cliArgsHash : Nat) (ar : AnalysedX90) (hs : List Nat)
    (h1 : payload.analysed_x90.lookup x90File = some ar)
    (h2 : ar.kernel_deps.mapM (fun k => payload.all_kernel_hashes.lookup k) =
      some hs) :
    genPrebuildHash x90File payload cliArgsHash =
      some (ar.file_hash + hs.dedup.sum +
        payload.transformation_script_hash + cliArgsHash) := by
  unfold genPrebuildHash
  rw [h1]
  simp only [h2]

/-- C1 — witness for the amended theorem at a concrete payload. -/
theorem c1_prebuild_hash_amended_witness :
    genPrebuildHash "a.x90"
      ⟨[("a.x90", ⟨"a.parsable_x90", 10, ["k1", "k2"]⟩)],
       [("k1", 5), ("k2", 5)], 3⟩ 7 = some 25 := by
  have h := c1_prebuild_hash_amended "a.x90"
    ⟨[("a.x90", ⟨"a.parsable_x90", 10, ["k1", "k2"]⟩)],
     [("k1", 5), ("k2", 5)], 3⟩ 7
    ⟨"a.parsable_x90", 10, ["k1", "k2"]⟩ [5, 5] (by decide) (by decide)
  exact h.trans (by decide)

/-- C3 — counterexample.  The claim states that kernel analysis considers
the union over all kernel roots of the walked files.  With two roots the
code's `set(*chain(file_lists))` passes two positional arguments to
`set()` and raises `TypeError` instead of producing the union. -/
theorem c3_kernel_union_counterexample :
    kernelFileDiscovery [["a.f90"], ["b.f90"]] = none ∧
    specKernelFileDiscovery [["a.f90"], ["b.f90"]] = ["a.f90", "b.f90"] ∧
    kernelFileDiscovery [["a.f90"], ["b.f90"]] ≠
      some (specKernelFileDiscovery [["a.f90"], ["b.f90"]]) := by
  refine ⟨rfl, by decide, by decide⟩

/-- C3 — amended.  With no kernel root the considered set is empty and
with exactly one root it is that root's walked files filtered to `.f90`
(which coincides with the union); with two or more roots the
`set(*chain(...))` call raises `TypeError` rather than computing the
union. -/
theorem c3_kernel_union_amended :
    kernelFileDiscovery [] = some [] ∧
    (∀ l : List FPath,
      kernelFileDiscovery [l] = some (specKernelFileDiscovery [l])) ∧
    (∀ (a b : List FPath) (rest : List (List FPath)),
      kernelFileDiscovery (a :: b :: rest) = none) := by
  refine ⟨rfl, ?_, ?_⟩
  · intro l
    simp [kernelFileDiscovery, specKernelFileDiscovery, pySetStarChain]
  · intro a b rest
    rfl

/-- C7 — counterexample.  The claim states that the hash component of a
prebuild filename is the combo hash rendered as a lowercase hexadecimal
u32.  For hash 255 the code writes the decimal `255`, not `ff`. -/
theorem c7_hex_filename_counterexample :
    getPrebuildPaths "pb" "vanilla" ".f90" "vanilla_psy" ".f90" 255 =
      ("pb/vanilla.255.f90", "pb/vanilla_psy.255.f90") ∧
    natToHexLower 255 = "ff" ∧
    "pb/vanilla.255.f90" ≠ "pb/vanilla." ++ natToHexLower 255 ++ ".f90" := by
  refine ⟨by decide, by decide, by decide⟩

/-- C7 — amended.  Every prebuild file the Psyclone step reads or writes
has filename `<stem>.<hash>.<ext>` in the prebuild folder, where the hash
component is the combo hash rendered as an (unbounded) *decimal* integer:
its characters are decimal digits only, never hex letters. -/
theorem c7_filename_decimal_amended :
    ∀ (folder algStem algSuffix genStem genSuffix : String) (h : Nat),
      getPrebuildPaths folder algStem algSuffix genStem genSuffix h =
        (folder ++ "/" ++ algStem ++ "." ++ Nat.repr h ++ algSuffix,
         folder ++ "/" ++ genStem ++ "." ++ Nat.repr h ++ genSuffix) ∧
      (Nat.repr h).data.all Char.isDigit = true := by
  intro folder algStem algSuffix genStem genSuffix h
  refine ⟨?_, repr_all_digit h⟩
  simp [getPrebuildPaths, prebuiltFileName, String.append_assoc]

/-- C4 — confirmed.  `make_parsable_x90` first removes every line whose
first non-whitespace character is `!`, then rewrites every
`call invoke( name = "...",` to `call invoke(`: the two literal examples
evaluate as the claim states, and a line is classified as a comment line
exactly when the first character remaining after stripping leading
whitespace is `!`. -/
theorem c4_make_parsable_x90 :
    makeParsableText "call invoke( name = \"m\", k(...))" =
      "call invoke(k(...))" ∧
    makeParsableText "call invoke( &\n! comment\nname = \"m\", k(x))" =
      "call invoke(k(x))" ∧
    (∀ line : List Char,
      isCommentLine line = true ↔ (line.dropWhile isPyWs).head? = some '!') ∧
    (∀ s : String, makeParsableText s =
      String.mk (subNamedInvoke (stripCommentLines s.data))) := by
  refine ⟨by decide, by decide, ?_, fun s => rfl⟩
  intro line
  unfold isCommentLine
  cases h : line.dropWhile isPyWs with
  | nil => simp
  | cons c rest => simp

/-- C5 — counterexample.  The claim states the comment-strip-then-rewrite
transformation is idempotent on every input.  On an invoke call carrying
two `name =` keywords, the first pass rewrites only the first keyword
(substitution resumes after the replaced span) and a second pass removes
the second keyword, so applying the transformation to its own output
changes it. -/
theorem c5_not_idempotent_counterexample :
    makeParsableText
        (makeParsableText "call invoke( name = \"a\", name = \"b\", k)") ≠
      makeParsableText "call invoke( name = \"a\", name = \"b\", k)" := by
  decide

/-- C5 — amended.  The comment-stripping stage of the transformation is
idempotent (the rewrite stage, and hence the full transformation, is
not: see the counterexample). -/
theorem c5_comment_strip_idempotent_amended (cs : List Char) :
    stripCommentLines (stripCommentLines cs) = stripCommentLines cs := by
  unfold stripCommentLines
  have hlines : Lines ((splitLinesKeep cs).filter (fun l => !isCommentLine l)) :=
    lines_filter _ _ (lines_splitLinesKeep cs)
  rw [splitLinesKeep_flatten _ hlines, List.filter_filter]
  congr 1
  refine List.filter_congr ?_
  intro l _
  cases isCommentLine l <;> rfl

/-- C2 — confirmed (spec-modelled).  For the compile scheduler's
`process_file` combo hashes: changing only the flags hash changes
`obj_combo_hash` and leaves `mods_combo_hash` identical; and bumping by
one the interface hash of a module occurring once among `module_deps`
increases `obj_combo_hash` by exactly one (provided it is not at the
wrap-around residue) and leaves `mods_combo_hash` unchanged. -/
theorem c2_combo_hash_sensitivity :
    (∀ (f : AnalysedFortranC) (ch cv fh1 fh2 : Nat) (mh : String → Nat),
      fh1 % 2 ^ 32 ≠ fh2 % 2 ^ 32 →
      (processFileHashes f ch cv fh1 mh).1 = (processFileHashes f ch cv fh2 mh).1 ∧
      (processFileHashes f ch cv fh1 mh).2 ≠ (processFileHashes f ch cv fh2 mh).2) ∧
    (∀ (f : AnalysedFortranC) (ch cv fh : Nat) (mh : String → Nat) (m : String),
      f.module_deps.count m = 1 →
      objComboHash f ch cv fh mh ≠ 2 ^ 32 - 1 →
      (processFileHashes f ch cv fh (Function.update mh m (mh m + 1))).1 =
        (processFileHashes f ch cv fh mh).1 ∧
      (processFileHashes f ch cv fh (Function.update mh m (mh m + 1))).2 =
        (processFileHashes f ch cv fh mh).2 + 1) := by
  constructor
  · intro f ch cv fh1 fh2 mh hne
    refine ⟨rfl, ?_⟩
    show objComboHash f ch cv fh1 mh ≠ objComboHash f ch cv fh2 mh
    unfold objComboHash combine
    have hr1 : [modsComboHash f ch cv, fh1, (f.module_deps.map mh).sum].sum =
        (modsComboHash f ch cv + (f.module_deps.map mh).sum) + fh1 := by
      simp [List.sum_cons]
      omega
    have hr2 : [modsComboHash f ch cv, fh2, (f.module_deps.map mh).sum].sum =
        (modsComboHash f ch cv + (f.module_deps.map mh).sum) + fh2 := by
      simp [List.sum_cons]
      omega
    rw [hr1, hr2]
    exact add_mod_ne _ _ _ _ hne
  · intro f ch cv fh mh m hcount htop
    refine ⟨rfl, ?_⟩
    show objComboHash f ch cv fh (Function.update mh m (mh m + 1)) =
      objComboHash f ch cv fh mh + 1
    unfold objComboHash combine
    rw [sum_map_update_add_one f.module_deps mh m hcount]
    have harr : [modsComboHash f ch cv, fh, (f.module_deps.map mh).sum + 1].sum =
        [modsComboHash f ch cv, fh, (f.module_deps.map mh).sum].sum + 1 := by
      simp [List.sum_cons]
      omega
    rw [harr]
    refine mod_add_one_of_ne_top _ _ (by norm_num) ?_
    exact htop

/-- C2 — witness at the unit test's concrete data: file hash 34567,
dependencies `mod_dep_1` (12345) and `mod_dep_2` (23456), two different
flags hashes. -/
theorem c2_combo_hash_sensitivity_witness :
    ((processFileHashes ⟨34567, ["mod_dep_1", "mod_dep_2"]⟩ 1111 2222 777
        (fun s => if s = "mod_dep_1" then 12345 else
          if s = "mod_dep_2" then 23456 else 0)).1 =
      (processFileHashes ⟨34567, ["mod_dep_1", "mod_dep_2"]⟩ 1111 2222 888
        (fun s => if s = "mod_dep_1" then 12345 else
          if s = "mod_dep_2" then 23456 else 0)).1 ∧
     (processFileHashes ⟨34567, ["mod_dep_1", "mod_dep_2"]⟩ 1111 2222 777
        (fun s => if s = "mod_dep_1" then 12345 else
          if s = "mod_dep_2" then 23456 else 0)).2 ≠
      (processFileHashes ⟨34567, ["mod_dep_1", "mod_dep_2"]⟩ 1111 2222 888
        (fun s => if s = "mod_dep_1" then 12345 else
          if s = "mod_dep_2" then 23456 else 0)).2) ∧
    ((processFileHashes ⟨34567, ["mod_dep_1", "mod_dep_2"]⟩ 1111 2222 777
        (Function.update
          (fun s => if s = "mod_dep_1" then 12345 else
            if s = "mod_dep_2" then 23456 else 0)
          "mod_dep_1"
          ((fun s => if s = "mod_dep_1" then 12345 else
            if s = "mod_dep_2" then 23456 else 0) "mod_dep_1" + 1))).1 =
      (processFileHashes ⟨34567, ["mod_dep_1", "mod_dep_2"]⟩ 1111 2222 777
        (fun s => if s = "mod_dep_1" then 12345 else
          if s = "mod_dep_2" then 23456 else 0)).1 ∧
     (processFileHashes ⟨34567, ["mod_dep_1", "mod_dep_2"]⟩ 1111 2222 777
        (Function.update
          (fun s => if s = "mod_dep_1" then 12345 else
            if s = "mod_dep_2" then 23456 else 0)
          "mod_dep_1"
          ((fun s => if s = "mod_dep_1" then 12345 else
            if s = "mod_dep_2" then 23456 else 0) "mod_dep_1" + 1))).2 =
      (processFileHashes ⟨34567, ["mod_dep_1", "mod_dep_2"]⟩ 1111 2222 777
        (fun s => if s = "mod_dep_1" then 12345 else
          if s = "mod_dep_2" then 23456 else 0)).2 + 1) :=
  ⟨c2_combo_hash_sensitivity.1 ⟨34567, ["mod_dep_1", "mod_dep_2"]⟩ 1111 2222
      777 888 _ (by decide),
   c2_combo_hash_sensitivity.2 ⟨34567, ["mod_dep_1", "mod_dep_2"]⟩ 1111 2222
      777 _ "mod_dep_1" (by decide) (by decide)⟩

/-- C6 — confirmed.  Every entry of the analysed-x90 mapping is keyed by
the original `.x90` path obtained from the analysed (parsable) file's
path, and its `file_hash` is overwritten with the checksum of that
original `.x90` file; conversely every analysis result appears in the
mapping under its original `.x90` key. -/
theorem c6_x90_rekey_rehash :
    (∀ (analyses : List AnalysedX90) (checksum : FPath → Nat)
       (entry : FPath × AnalysedX90),
      entry ∈ buildAnalysedX90Map analyses checksum →
      entry.2.file_hash = checksum entry.1 ∧
      ∃ orig ∈ analyses, entry.1 = withSuffix orig.fpath ".x90" ∧
        entry.2 = { orig with file_hash := checksum entry.1 }) ∧
    (∀ (analyses : List AnalysedX90) (checksum : FPath → Nat)
       (orig : AnalysedX90), orig ∈ analyses →
      (withSuffix orig.fpath ".x90",
        { orig with
            file_hash := checksum (withSuffix orig.fpath ".x90") }) ∈
        buildAnalysedX90Map analyses checksum) := by
  constructor
  · intro analyses checksum entry hmem
    unfold buildAnalysedX90Map at hmem
    rw [List.mem_map] at hmem
    obtain ⟨pr, hpr, hentry⟩ := hmem
    rw [List.mem_map] at hpr
    obtain ⟨orig, horig, hpr2⟩ := hpr
    subst hpr2
    subst hentry
    exact ⟨rfl, orig, horig, rfl, rfl⟩
  · intro analyses checksum orig horig
    unfold buildAnalysedX90Map
    rw [List.mem_map]
    refine ⟨(withSuffix orig.fpath ".x90", orig), ?_, rfl⟩
    rw [List.mem_map]
    exact ⟨orig, horig, rfl⟩

/-- C6 — witness at a concrete record: the result keyed under
`dir/a.x90` has the overwritten checksum 99. -/
theorem c6_x90_rekey_rehash_witness :
    (("dir/a.x90", ⟨"dir/a.parsable_x90", 99, ["k1"]⟩) :
        FPath × AnalysedX90).2.file_hash =
      (fun _ => 99 : FPath → Nat) "dir/a.x90" ∧
    ∃ orig ∈ [(⟨"dir/a.parsable_x90", 7, ["k1"]⟩ : AnalysedX90)],
      ("dir/a.x90" : FPath) = withSuffix orig.fpath ".x90" ∧
      (⟨"dir/a.parsable_x90", 99, ["k1"]⟩ : AnalysedX90) =
        { orig with file_hash := (fun _ => 99 : FPath → Nat) "dir/a.x90" } :=
  c6_x90_rekey_rehash.1 [⟨"dir/a.parsable_x90", 7, ["k1"]⟩] (fun _ => 99)
    ("dir/a.x90", ⟨"dir/a.parsable_x90", 99, ["k1"]⟩) (by decide)

/-- C8 — confirmed.  If the analysed kernel files' kernel names are
pairwise disjoint, gathering succeeds and the resulting mapping is the
concatenation of every file's kernel hashes; if they are not pairwise
disjoint (two files define a kernel of the same name), gathering fails
with the duplicate-kernel assertion error. -/
theorem c8_duplicate_kernels (afs : List AnalysedFortranK) :
    (List.Pairwise kernelDisjoint afs →
      gatherKernelHashes afs [] =
        .ok ((afs.map (fun af => af.psyclone_kernels)).flatten)) ∧
    (¬ List.Pairwise kernelDisjoint afs →
      isOkE (gatherKernelHashes afs []) = false) := by
  constructor
  · intro hpw
    have h := gather_ok_of_disjoint afs [] hpw ?_
    · simpa using h
    · intro af _
      rw [kernelsClash_eq_false_iff]
      intro kv _ kv2 hkv2
      simp at hkv2
  · intro hpw
    exact gather_error_of_not_pairwise afs [] hpw

/-- C8 — witness: two disjoint kernel files gather into the combined
mapping; two files sharing the kernel name `ka` make gathering fail. -/
theorem c8_duplicate_kernels_witness :
    gatherKernelHashes
      [⟨"f1", [("ka", 1)]⟩, ⟨"f2", [("kb", 2)]⟩] [] =
      .ok [("ka", 1), ("kb", 2)] ∧
    isOkE (gatherKernelHashes
      [⟨"g1", [("ka", 1)]⟩, ⟨"g2", [("ka", 2)]⟩] []) = false :=
  ⟨(c8_duplicate_kernels [⟨"f1", [("ka", 1)]⟩, ⟨"f2", [("kb", 2)]⟩]).1
      (by simp [kernelDisjoint]),
   (c8_duplicate_kernels [⟨"g1", [("ka", 1)]⟩, ⟨"g2", [("ka", 2)]⟩]).2
      (by simp [List.pairwise_cons, kernelDisjoint])⟩

/-- C9 — counterexample.  The claim states that in every analysis phase a
failing input makes the step fail by raising.  In the kernel-analysis
phase a failing input is only logged: the phase still completes with an
ok result. -/
theorem c9_kernel_phase_counterexample :
    errorMsgs [(PyRes.exc "boom" : PyRes AnalysedFortranK)] ≠ [] ∧
    (analyseKernelsPhase [PyRes.exc "boom"]).1 = ["boom"] ∧
    (analyseKernelsPhase [PyRes.exc "boom"]).2 = .ok [] := by
  refine ⟨by decide, rfl, rfl⟩

/-- C9 — amended.  In the x90-analysis phase, per-input errors are
collected and the phase raises with all of them together
(`check_for_errors`).  In the kernel-analysis phase, per-input errors are
collected and logged together but the phase does not raise: its outcome
is the same as if the failing inputs were absent. -/
theorem c9_error_collection_amended :
    (∀ (rs : List (PyRes AnalysedX90)) (checksum : FPath → Nat),
      errorMsgs rs ≠ [] →
      analyseX90Phase rs checksum = .error (errorMsgs rs)) ∧
    (∀ rs : List (PyRes AnalysedFortranK),
      (analyseKernelsPhase rs).1 = errorMsgs rs ∧
      (analyseKernelsPhase rs).2 =
        (analyseKernelsPhase (rs.filter isValR)).2) := by
  constructor
  · intro rs checksum herr
    unfold analyseX90Phase check_for_errors
    rw [if_neg herr]
    rfl
  · intro rs
    refine ⟨rfl, ?_⟩
    unfold analyseKernelsPhase
    rw [successes_filter_vals]

/-- C9 — witness: an x90-analysis phase with one failing input raises
with that error. -/
theorem c9_error_collection_amended_witness :
    analyseX90Phase [PyRes.exc "bad"] (fun _ => 0) = .error ["bad"] :=
  c9_error_collection_amended.1 [PyRes.exc "bad"] (fun _ => 0) (by decide)

/-- C10 — confirmed.  Whenever `do_one_file` succeeds, the prebuild list
it returns is exactly the pair of combo-hashed algorithm and `_psy`
prebuild paths — also when no `_psy` file was generated or restored —
and the step registers every returned prebuild path as current, so a
path absent from the filesystem can end up registered (concrete second
conjunct: the `_psy` prebuild path is registered as current yet does not
exist). -/
theorem c10_prebuild_registration :
    (∀ (fs : List FPath) (stem buildOutput prebuildFolder : String)
       (h : Nat) (out : PsycloneOutcome) (outs pbs fs2 : List FPath),
      doOneFile fs stem buildOutput prebuildFolder h out =
        .ok (outs, pbs, fs2) →
      pbs = [(getPrebuildPaths prebuildFolder stem ".f90"
                (stem ++ "_psy") ".f90" h).1,
             (getPrebuildPaths prebuildFolder stem ".f90"
                (stem ++ "_psy") ".f90" h).2]) ∧
    (doOneFile ["PB/van.7.f90"] "van" "out" "PB" 7 ⟨false, false⟩ =
       .ok (["out/van.f90"], ["PB/van.7.f90", "PB/van_psy.7.f90"],
            ["out/van.f90", "PB/van.7.f90"]) ∧
     "PB/van_psy.7.f90" ∈
       addCurrentPrebuilds [] ["PB/van.7.f90", "PB/van_psy.7.f90"] ∧
     "PB/van_psy.7.f90" ∉ (["out/van.f90", "PB/van.7.f90"] : List FPath)) := by
  constructor
  · intro fs stem buildOutput prebuildFolder h out outs pbs fs2 heq
    simp only [doOneFile] at heq
    split at heq
    · exact Except.noConfusion heq
    · simp only [Except.ok.injEq, Prod.mk.injEq] at heq
      exact heq.2.1.symm
  · refine ⟨by rfl, by decide, by decide⟩

/-- C10 — witness: the general conjunct applied at the concrete restore
branch where the `_psy` prebuild does not exist. -/
theorem c10_prebuild_registration_witness :
    (["PB/van.7.f90", "PB/van_psy.7.f90"] : List FPath) =
      [(getPrebuildPaths "PB" "van" ".f90" ("van" ++ "_psy") ".f90" 7).1,
       (getPrebuildPaths "PB" "van" ".f90" ("van" ++ "_psy") ".f90" 7).2] :=
  c10_prebuild_registration.1 ["PB/van.7.f90"] "van" "out" "PB" 7
    ⟨false, false⟩ ["out/van.f90"] ["PB/van.7.f90", "PB/van_psy.7.f90"]
    ["out/van.f90", "PB/van.7.f90"] (by rfl)

end Fab
